import Mathlib

/-!
# Infrared distance sensor module (IR.c)

A shallow embedding of the infrared sensor module of the rover firmware
(src/rover/src/IR.c, an AVR target) together with theorems about it.

Modelling conventions.

* Machine integers are natural numbers reduced modulo 2^8 or 2^16 where the
  source stores them in a uint8_t or uint16_t object.
* The C type float is modelled by rational numbers together with a rounding
  operator fl : ℚ → ℚ applied after every floating point operation of the
  source.  Exact arithmetic is the instance fl = id (named exactArith).
* Calls into other modules (display, buttons, delays, serial port, transmit
  queue, error reporter) are recorded, in program order, in a trace of events.
* The analog to digital converter is an environment: adc k is the code the
  data register holds when the k-th conversion completes.
-/

namespace IR

/-! ## Constants of the module -/

/-- Largest calibrated distance in centimetres (MAX_DIST). -/
def MAX_DIST : Nat := 50

/-- Smallest calibrated distance in centimetres (MIN_DIST). -/
def MIN_DIST : Nat := 9

/-- Number of samples taken at each distance (NUM_CALIB_SAMPLES). -/
def NUM_CALIB_SAMPLES : Nat := 50

/-- Subsystem identifiers of control.h.  Only subsys_ir is named by IR.c;
the remaining enumerators are kept abstract. -/
inductive Subsys where
  | subsys_ir : Subsys
  | other : Nat → Subsys
  deriving DecidableEq, Repr

/-- Error categories handed to r_error.  Only error_bad_message is named by
IR.c; the remaining enumerators are kept abstract. -/
inductive ErrorCode where
  | error_bad_message : ErrorCode
  | other : Nat → ErrorCode
  deriving DecidableEq, Repr

/-- One observable interaction of the module with a collaborator or with the
converter hardware. -/
inductive Event where
  | lcd_init : Event
  | init_push_buttons : Event
  | usart_init : Nat → Event
  | usart_tx_buf : String → Event
  | wait_ms : Nat → Event
  | lcd_clear : Event
  | lprintf : String → Event
  | wait_button : Event
  | lcd_puts : String → Event
  | adc_conversion : Nat → Event
  | usart_rx : Nat → Event
  | txq_enqueue : Nat → Event
  | call_ir_init : Event
  | dist_reading_handler : Subsys → Event
  | r_error : ErrorCode → String → Event
  deriving DecidableEq, Repr

/-- The mutable state the module touches: the two converter control registers,
the global calibration table, the number of conversions completed so far and
the trace of collaborator calls. -/
structure World where
  ADMUX : Nat
  ADCSRA : Nat
  calib_data : List Nat
  convs : Nat
  trace : List Event
  deriving DecidableEq, Repr

/-- The state at program start: registers cleared, calib_data zero initialised
with MAX_DIST + 1 entries, nothing observed yet. -/
def World.boot : World :=
  { ADMUX := 0, ADCSRA := 0, calib_data := List.replicate (MAX_DIST + 1) 0,
    convs := 0, trace := [] }

/-- Append one event to the trace. -/
def emit (e : Event) (w : World) : World :=
  { w with trace := w.trace ++ [e] }

/-! ## Converter set-up and raw sampling -/

/-- Embedding of ir_init: the two masks are built with the same sequence of
or-assignments on a uint8_t and written to ADMUX and ADCSRA. -/
def ir_init (w : World) : World :=
  let mask : Nat := 0
  let mask := (mask ||| 0xC0) % 256
  let mask := (mask ||| 0x02) % 256
  let w := { w with ADMUX := mask }
  let mask : Nat := 0
  let mask := (mask ||| 0x80) % 256
  let mask := (mask ||| 0x07) % 256
  { w with ADCSRA := mask }

/-- Embedding of ir_start: set the start-conversion bit of ADCSRA. -/
def ir_start (w : World) : World :=
  { w with ADCSRA := (w.ADCSRA ||| 0x40) % 256 }

/-- Embedding of ir_raw_reading.  After ir_start the source spins while the
start-conversion bit is set.  The converter is assumed to finish: it clears the
bit and loads the data register with the next code of the environment, which
is returned as a uint16_t.  The completed conversion is recorded in the
trace. -/
def ir_raw_reading (adc : Nat → Nat) (w : World) : Nat × World :=
  let w := ir_start w
  let raw := adc w.convs % 65536
  let w := { w with ADCSRA := w.ADCSRA &&& 0xBF, convs := w.convs + 1 }
  (raw, emit (Event.adc_conversion raw) w)

/-! ## Floating point model -/

/-- Exact arithmetic: no rounding at all. -/
def exactArith : ℚ → ℚ := id

/-- The error model of binary32 arithmetic: the result of every operation is
within one unit in the last place of the exact result, that is, its relative
error is at most 2^-23.  Correct rounding to nearest (relative error at most
2^-24), truncation and exact arithmetic all satisfy it. -/
def FloatModel (fl : ℚ → ℚ) : Prop :=
  ∀ x : ℚ, |fl x - x| ≤ |x| / 2 ^ 23

/-- Rounding of a rational to the nearest integer, halfway cases to the even
neighbour. -/
def roundNearestEven (y : ℚ) : ℤ :=
  if y - (⌊y⌋ : ℚ) < 1 / 2 then ⌊y⌋
  else if 1 / 2 < y - (⌊y⌋ : ℚ) then ⌊y⌋ + 1
  else if ⌊y⌋ % 2 = 0 then ⌊y⌋ else ⌊y⌋ + 1

/-- Rounding to the nearest binary32 value (24 significant bits, halfway cases
to even).  The exponent range is not bounded: overflow and gradual underflow
are not modelled. -/
def binary32 (x : ℚ) : ℚ :=
  if x = 0 then 0
  else (roundNearestEven (x / 2 ^ (Int.log 2 |x| - 23)) : ℚ) * 2 ^ (Int.log 2 |x| - 23)

/-- The C library function round on a rational: nearest integer, halfway cases
away from zero. -/
def c_round (x : ℚ) : ℤ :=
  if 0 ≤ x then ⌊x + 1 / 2⌋ else ⌈x - 1 / 2⌉

/-- Conversion of an integral floating value to uint16_t. -/
def to_uint16 (z : ℤ) : Nat :=
  (z % 65536).toNat

/-! ## Distance conversion -/

/-- The denominator slope * v + intercept of ir_analytical_conv, with v computed
as in the source.  Every float operation is followed by fl. -/
def ir_analytical_denominator (fl : ℚ → ℚ) (d : Nat) : ℚ :=
  let vRef : ℚ := fl 2.56
  let slope : ℚ := fl 0.042977
  let intercept : ℚ := fl (-0.009167)
  let v : ℚ := fl (fl (vRef / 1024) * ((d % 65536 : Nat) : ℚ))
  fl (fl (slope * v) + intercept)

/-- Embedding of ir_analytical_conv.  The quotient 1 / (slope * v + intercept)
has no finite value when the denominator is zero; that case is the result
none.  The literal 0.42 has type double, which on the AVR target is the same
32 bit format as float, so the final subtraction is rounded by fl as well. -/
def ir_analytical_conv (fl : ℚ → ℚ) (d : Nat) : Option ℚ :=
  let den := ir_analytical_denominator fl d
  if den = 0 then none else some (fl (fl (1 / den) - fl 0.42))

/-- The coefficient table coef of ir_conv. -/
def coef (fl : ℚ → ℚ) : Fin 4 → ℚ :=
  ![fl 100.5, fl (-0.2811), fl 3.148e-4, fl (-1.254e-7)]

/-- Embedding of ir_conv: the Horner evaluation of the source, every float
operation followed by fl. -/
def ir_conv (fl : ℚ → ℚ) (d : Nat) : ℚ :=
  let x : ℚ := ((d % 65536 : Nat) : ℚ)
  fl (coef fl 0 + fl (x * fl (coef fl 1 + fl (x * fl (coef fl 2 + fl (x * coef fl 3))))))

/-- Embedding of ir_reading. -/
def ir_reading (adc : Nat → Nat) (fl : ℚ → ℚ) (w : World) : ℚ × World :=
  let r := ir_raw_reading adc w
  (ir_conv fl r.1, r.2)

/-! ## Calibration -/

/-- The conversion %d of printf applied to a 16 bit int (the int of the AVR
target), given as its bit pattern. -/
def printf_d (v : Nat) : String :=
  if v % 65536 < 32768 then Nat.repr (v % 65536)
  else "-" ++ Nat.repr (65536 - v % 65536)

/-- The effect of snprintf on a buffer of the given size: at most size - 1
characters are kept. -/
def snprintf (size : Nat) (s : String) : String :=
  String.mk (s.data.take (size - 1))

/-- Embedding of send_dist_reading. -/
def send_dist_reading (dist reading : Nat) (w : World) : World :=
  let buf := snprintf 100
    (printf_d (dist % 256) ++ ", " ++ printf_d (reading % 65536) ++ "\n")
  emit (Event.usart_tx_buf buf) w

/-- The inner loop of ir_calibrate, for (i = 0; i < NUM_CALIB_SAMPLES; i++),
started at loop counter i with the running value avg. -/
def sample_loop (adc : Nat → Nat) (fl : ℚ → ℚ) (bam_send save_means : Bool)
    (dist : Nat) (i : Nat) (avg : ℚ) (w : World) : ℚ × World :=
  if i < NUM_CALIB_SAMPLES then
    let r := ir_raw_reading adc w
    let sample := r.1
    let w := r.2
    let w := if bam_send then send_dist_reading dist sample w else w
    let avg := if save_means then fl (avg + fl ((sample : ℚ) / (NUM_CALIB_SAMPLES : ℚ))) else avg
    let w := emit (Event.wait_ms 20) w
    sample_loop adc fl bam_send save_means dist (i + 1) avg w
  else (avg, w)
termination_by NUM_CALIB_SAMPLES - i

/-- The outer loop of ir_calibrate, for (dist = MIN_DIST; dist <= MAX_DIST;
dist++), started at loop counter dist. -/
def dist_loop (adc : Nat → Nat) (fl : ℚ → ℚ) (bam_send save_means : Bool)
    (dist : Nat) (w : World) : World :=
  if dist ≤ MAX_DIST then
    let w := emit Event.lcd_clear w
    let w := emit (Event.lprintf ("Ready to Start " ++ printf_d dist ++ " cm")) w
    let w := emit Event.wait_button w
    let w := emit Event.lcd_clear w
    let w := emit (Event.lcd_puts "Sampling...") w
    let w := emit (Event.wait_ms 500) w
    let r := sample_loop adc fl bam_send save_means dist 0 0 w
    let avg := r.1
    let w := r.2
    let w := if save_means then
        { w with calib_data := w.calib_data.set dist (to_uint16 (c_round avg)) }
      else w
    dist_loop adc fl bam_send save_means (dist + 1) w
  else w
termination_by MAX_DIST + 1 - dist

/-- Embedding of ir_calibrate. -/
def ir_calibrate (adc : Nat → Nat) (fl : ℚ → ℚ) (bam_send save_means : Bool)
    (w : World) : World :=
  let w := emit Event.lcd_init w
  let w := emit Event.init_push_buttons w
  let w := if bam_send then
      emit (Event.usart_tx_buf "Distances, Readings\n") (emit (Event.usart_init 1) w)
    else w
  let w := emit (Event.wait_ms 500) w
  dist_loop adc fl bam_send save_means MIN_DIST w

/-! ## Command dispatch -/

/-- Embedding of ir_system.  The argument rx is the value usart_rx returns; it
is stored in the uint8_t command_id. -/
def ir_system (rx : Nat) (w : World) : World :=
  let command_id := rx % 256
  let w := emit (Event.usart_rx command_id) w
  let w := emit (Event.txq_enqueue command_id) w
  match command_id with
  | 0 => ir_init (emit Event.call_ir_init w)
  | 1 => emit (Event.dist_reading_handler Subsys.subsys_ir) w
  | _ => emit (Event.r_error ErrorCode.error_bad_message "Bad IR Command") w

/-! ## Observations on traces -/

/-- The text handed to usart_tx_buf, in order. -/
def txLines (t : List Event) : List String :=
  t.filterMap fun e => match e with
    | Event.usart_tx_buf s => some s
    | _ => none

/-- The expected telemetry line for a distance and a raw code. -/
def sampleLine (d raw : Nat) : String :=
  Nat.repr d ++ ", " ++ Nat.repr raw ++ "\n"

/-- The events of one pass through the body of the inner loop of ir_calibrate
when the conversion it waits for is the k-th one. -/
def sampleEvents (adc : Nat → Nat) (bam_send : Bool) (dist k : Nat) : List Event :=
  [Event.adc_conversion (adc k % 65536)]
    ++ (if bam_send then
          [Event.usart_tx_buf (snprintf 100
            (printf_d (dist % 256) ++ ", " ++ printf_d (adc k % 65536 % 65536) ++ "\n"))]
        else [])
    ++ [Event.wait_ms 20]

/-- The running value avg after the samples with conversion numbers base,
base + 1, ..., base + n - 1 have been accumulated, starting from avg0. -/
def runningAvg (adc : Nat → Nat) (fl : ℚ → ℚ) (base n : Nat) (avg0 : ℚ) : ℚ :=
  (List.range' base n).foldl
    (fun a k => fl (a + fl (((adc k % 65536 : Nat) : ℚ) / (NUM_CALIB_SAMPLES : ℚ)))) avg0

/-- The events of one pass through the body of the outer loop of ir_calibrate
at distance d, when c0 conversions had completed before the session. -/
def blockEvents (adc : Nat → Nat) (bam_send : Bool) (c0 d : Nat) : List Event :=
  [Event.lcd_clear, Event.lprintf ("Ready to Start " ++ printf_d d ++ " cm"),
    Event.wait_button, Event.lcd_clear, Event.lcd_puts "Sampling...", Event.wait_ms 500]
    ++ (List.range' (c0 + NUM_CALIB_SAMPLES * (d - MIN_DIST)) NUM_CALIB_SAMPLES).flatMap
        (sampleEvents adc bam_send d)

/-- The value stored into calib_data at distance d by a session with
save_means set, when c0 conversions had completed before the session. -/
def calibEntry (adc : Nat → Nat) (fl : ℚ → ℚ) (c0 d : Nat) : Nat :=
  to_uint16 (c_round
    (runningAvg adc fl (c0 + NUM_CALIB_SAMPLES * (d - MIN_DIST)) NUM_CALIB_SAMPLES 0))

/-- The events emitted by one run of ir_calibrate from the state w. -/
def runEvents (adc : Nat → Nat) (fl : ℚ → ℚ) (bam_send save_means : Bool) (w : World) :
    List Event :=
  (ir_calibrate adc fl bam_send save_means w).trace.drop w.trace.length

/-- The prompts, button waits and conversions of a trace, in order. -/
def calibSteps (t : List Event) : List Event :=
  t.filter fun e => match e with
    | Event.lprintf _ => true
    | Event.wait_button => true
    | Event.adc_conversion _ => true
    | _ => false

/-- Recognises a completed conversion. -/
def Event.isConversion (e : Event) : Bool :=
  match e with
  | Event.adc_conversion _ => true
  | _ => false

/-- Recognises a button wait. -/
def Event.isButtonWait (e : Event) : Bool :=
  match e with
  | Event.wait_button => true
  | _ => false

/-- The prompts, button wait and conversions expected at distance d when c0
conversions had completed before the session. -/
def expectedSteps (adc : Nat → Nat) (c0 d : Nat) : List Event :=
  [Event.lprintf ("Ready to Start " ++ Nat.repr d ++ " cm"), Event.wait_button]
    ++ (List.range 50).map (fun j => Event.adc_conversion (adc (c0 + 50 * (d - 9) + j) % 65536))

/-- The arithmetic mean of the 50 raw codes sampled at distance d by a session
that starts after c0 completed conversions. -/
def sampleMean (adc : Nat → Nat) (c0 d : Nat) : ℚ :=
  ((List.range 50).map (fun j => (adc (c0 + 50 * (d - 9) + j) : ℚ))).sum / 50

/-! ## Theorems -/

/-- Claim C6: whatever the two control registers held before, ir_init leaves
0xC2 in ADMUX and 0x87 in ADCSRA; running it twice gives the same state as
running it once; and the start-conversion bit 0x40 of ADCSRA is clear
afterwards, so no conversion is triggered. -/
theorem ir_init_registers (w : World) :
    (ir_init w).ADMUX = 0xC2 ∧ (ir_init w).ADCSRA = 0x87 ∧
    ir_init (ir_init w) = ir_init w ∧ (ir_init w).ADCSRA &&& 0x40 = 0 := by
  refine ⟨rfl, rfl, rfl, ?_⟩
  show (0x87 : Nat) &&& 0x40 = 0
  decide

/-- Claim C1: for a received byte b in 0..255 one call of ir_system appends
exactly three events to the trace: the read of b, the enqueue of b on the
acknowledgment queue, and then one routing action: ir_init when b = 0 (which
also reprograms the registers), dist_reading_handler subsys_ir when b = 1, and
r_error error_bad_message "Bad IR Command" for every other byte.  Nothing else
changes. -/
theorem ir_system_dispatch (b : Nat) (hb : b < 256) (w : World) :
    (b = 0 → ir_system b w =
      { ir_init w with trace := w.trace ++
          [Event.usart_rx 0, Event.txq_enqueue 0, Event.call_ir_init] }) ∧
    (b = 1 → ir_system b w =
      { w with trace := w.trace ++
          [Event.usart_rx 1, Event.txq_enqueue 1,
           Event.dist_reading_handler Subsys.subsys_ir] }) ∧
    (b ≠ 0 → b ≠ 1 → ir_system b w =
      { w with trace := w.trace ++
          [Event.usart_rx b, Event.txq_enqueue b,
           Event.r_error ErrorCode.error_bad_message "Bad IR Command"] }) := by
  refine ⟨?_, ?_, ?_⟩
  · rintro rfl
    simp [ir_system, emit, ir_init]
  · rintro rfl
    simp [ir_system, emit]
  · intro h0 h1
    have hm : b % 256 = b := Nat.mod_eq_of_lt hb
    match b, h0, h1 with
    | n + 2, _, _ =>
      simp only [ir_system, hm]
      simp [emit]

theorem ir_conv_exact (r : Nat) (hr : r < 65536) :
    ir_conv exactArith r
      = 100.5 - 0.2811 * (r : ℚ) + 3.148e-4 * (r : ℚ) ^ 2 - 1.254e-7 * (r : ℚ) ^ 3 := by
  have hm : r % 65536 = r := Nat.mod_eq_of_lt hr
  simp only [ir_conv, coef, exactArith, id, hm]
  simp
  ring

/-- Claim C7: in exact arithmetic the Horner evaluation performed by ir_conv
agrees, for every raw code r in 0..1023, with the expanded cubic
100.5 - 0.2811 r + 3.148e-4 r^2 - 1.254e-7 r^3; in particular ir_conv 0 is
100.5 and ir_conv 500 is 22.975. -/
theorem ir_conv_expanded (r : Nat) (hr : r ≤ 1023) :
    ir_conv exactArith r
      = 100.5 - 0.2811 * (r : ℚ) + 3.148e-4 * (r : ℚ) ^ 2 - 1.254e-7 * (r : ℚ) ^ 3
    ∧ ir_conv exactArith 0 = 100.5 ∧ ir_conv exactArith 500 = 22.975 := by
  refine ⟨ir_conv_exact r (by omega), ?_, ?_⟩
  · rw [ir_conv_exact 0 (by norm_num)]
    norm_num
  · rw [ir_conv_exact 500 (by norm_num)]
    norm_num

theorem ir_analytical_denominator_exact (r : Nat) (hr : r < 65536) :
    ir_analytical_denominator exactArith r
      = 0.042977 * (2.56 / 1024) * (r : ℚ) - 0.009167 := by
  have hm : r % 65536 = r := Nat.mod_eq_of_lt hr
  simp only [ir_analytical_denominator, exactArith, id, hm]
  ring

theorem ir_analytical_denominator_ne_zero (r : Nat) :
    (0.042977 * (2.56 / 1024) * (r : ℚ) - 0.009167 : ℚ) ≠ 0 := by
  intro h
  have h2 : (42977 : ℚ) * (r : ℚ) = 3666800 := by
    norm_num at h
    linarith
  have h3 : 42977 * r = 3666800 := by exact_mod_cast h2
  omega

theorem ir_analytical_conv_of_denominator (x : ℚ) (r : Nat)
    (hden : ir_analytical_denominator exactArith r = x) (hne : x ≠ 0) :
    ir_analytical_conv exactArith r = some (1 / x - 0.42) := by
  rw [ir_analytical_conv]
  simp only [hden]
  rw [if_neg hne]
  simp only [exactArith, id_eq]

/-- Claim C8: for every 16 bit raw code r the denominator
0.042977 * (2.56 / 1024) * r - 0.009167 is different from zero in exact
arithmetic, so ir_analytical_conv never fails and returns
1 / (0.042977 * (2.56 / 1024) * r - 0.009167) - 0.42. -/
theorem ir_analytical_conv_total (r : Nat) (hr : r < 65536) :
    (0.042977 * (2.56 / 1024) * (r : ℚ) - 0.009167 : ℚ) ≠ 0 ∧
    ir_analytical_denominator exactArith r ≠ 0 ∧
    ir_analytical_conv exactArith r
      = some (1 / (0.042977 * (2.56 / 1024) * (r : ℚ) - 0.009167) - 0.42) := by
  have hne := ir_analytical_denominator_ne_zero r
  have hden := ir_analytical_denominator_exact r hr
  exact ⟨hne, by rw [hden]; exact hne, ir_analytical_conv_of_denominator _ r hden hne⟩

theorem ir_analytical_conv_zero_value :
    ir_analytical_conv exactArith 0 = some (1 / (-0.009167) - 0.42) := by
  have hden : ir_analytical_denominator exactArith 0 = -0.009167 := by
    rw [ir_analytical_denominator_exact 0 (by norm_num)]
    norm_num
  exact ir_analytical_conv_of_denominator _ 0 hden (by norm_num)

/-- Claim C9 as stated fails: the value of ir_analytical_conv at raw code 0 is
further than 0.005 from -109.55. -/
theorem ir_analytical_conv_zero_not_109_55 :
    ∃ v : ℚ, ir_analytical_conv exactArith 0 = some v ∧ ¬ (|v - (-109.55)| ≤ 0.005) := by
  refine ⟨_, ir_analytical_conv_zero_value, ?_⟩
  rw [abs_le]; norm_num

/-- Claim C9, amended: ir_analytical_conv at raw code 0 equals
1 / (-0.009167) - 0.42, and this value agrees with -109.51 to two decimal
places (it is within 0.005 of -109.51). -/
theorem ir_analytical_conv_zero :
    ir_analytical_conv exactArith 0 = some (1 / (-0.009167) - 0.42) ∧
    |(1 / (-0.009167) - 0.42 : ℚ) - (-109.51)| ≤ 0.005 := by
  refine ⟨ir_analytical_conv_zero_value, ?_⟩
  rw [abs_le]; norm_num

theorem ir_conv_diff (a b : ℚ) :
    (100.5 - 0.2811 * b + 3.148e-4 * b ^ 2 - 1.254e-7 * b ^ 3)
      - (100.5 - 0.2811 * a + 3.148e-4 * a ^ 2 - 1.254e-7 * a ^ 3)
    = (b - a) * (-0.2811 + 3.148e-4 * (a + b) - 1.254e-7 * (a ^ 2 + a * b + b ^ 2)) := by
  ring

theorem ir_conv_slope_neg (a b : ℚ) :
    (-0.2811 + 3.148e-4 * (a + b) - 1.254e-7 * (a ^ 2 + a * b + b ^ 2) : ℚ) < 0 := by
  nlinarith [sq_nonneg (a - b), sq_nonneg (a + b - 1673.5)]


/-- Claim C10: in exact arithmetic ir_conv is strictly decreasing on the raw
codes 0..1023, hence distinct raw codes never give the same distance; the
derivative of the cubic, 3 c3 r^2 + 2 c2 r + c1, has negative discriminant. -/
theorem ir_conv_strictly_decreasing (r1 r2 : Nat) (h12 : r1 < r2) (h2 : r2 ≤ 1023) :
    ir_conv exactArith r2 < ir_conv exactArith r1 ∧
    ir_conv exactArith r1 ≠ ir_conv exactArith r2 ∧
    ((2 * coef exactArith 2) ^ 2 - 4 * (3 * coef exactArith 3) * coef exactArith 1 < 0) := by
  have e1 := ir_conv_exact r1 (by omega)
  have e2 := ir_conv_exact r2 (by omega)
  have hlt : ir_conv exactArith r2 < ir_conv exactArith r1 := by
    have hd := ir_conv_diff (r1 : ℚ) (r2 : ℚ)
    have hs := ir_conv_slope_neg (r1 : ℚ) (r2 : ℚ)
    have hpos : (0 : ℚ) < (r2 : ℚ) - (r1 : ℚ) := by
      have : (r1 : ℚ) < (r2 : ℚ) := by exact_mod_cast h12
      linarith
    have := mul_neg_of_pos_of_neg hpos hs
    rw [e1, e2]
    linarith
  refine ⟨hlt, ne_of_gt hlt, ?_⟩
  simp [coef, exactArith]
  norm_num


theorem emit_trace (e : Event) (w : World) : (emit e w).trace = w.trace ++ [e] := rfl
theorem emit_convs (e : Event) (w : World) : (emit e w).convs = w.convs := rfl
theorem emit_calib_data (e : Event) (w : World) : (emit e w).calib_data = w.calib_data := rfl

theorem sample_loop_spec (adc : Nat → Nat) (fl : ℚ → ℚ) (bam_send save_means : Bool)
    (dist : Nat) : ∀ (n i : Nat) (avg : ℚ) (w : World), i + n = NUM_CALIB_SAMPLES →
    (sample_loop adc fl bam_send save_means dist i avg w).2.trace
        = w.trace ++ (List.range' w.convs n).flatMap (sampleEvents adc bam_send dist) ∧
    (sample_loop adc fl bam_send save_means dist i avg w).2.convs = w.convs + n ∧
    (sample_loop adc fl bam_send save_means dist i avg w).2.calib_data = w.calib_data ∧
    (sample_loop adc fl bam_send save_means dist i avg w).1
        = if save_means then runningAvg adc fl w.convs n avg else avg := by
  intro n
  induction n with
  | zero =>
    intro i avg w h
    have hi : ¬ i < NUM_CALIB_SAMPLES := by omega
    rw [sample_loop, if_neg hi]
    simp [runningAvg]
  | succ n ih =>
    intro i avg w h
    have hi : i < NUM_CALIB_SAMPLES := by omega
    rw [sample_loop, if_pos hi]
    obtain ⟨h1, h2, h3, h4⟩ := ih (i + 1)
      (if save_means then
        fl (avg + fl (((ir_raw_reading adc w).1 : ℚ) / (NUM_CALIB_SAMPLES : ℚ))) else avg)
      (emit (Event.wait_ms 20)
        (if bam_send then send_dist_reading dist (ir_raw_reading adc w).1 (ir_raw_reading adc w).2
          else (ir_raw_reading adc w).2)) (by omega)
    simp only [] 
    rw [h1, h2, h3, h4]
    cases bam_send <;> cases save_means <;>
      simp [ir_raw_reading, ir_start, emit, send_dist_reading, sampleEvents, runningAvg,
        List.range'_succ, Nat.add_assoc, Nat.add_comm 1 n]


theorem dist_loop_spec (adc : Nat → Nat) (fl : ℚ → ℚ) (bam_send save_means : Bool)
    (c0 : Nat) : ∀ (m dist : Nat) (w : World), dist + m = MAX_DIST + 1 → MIN_DIST ≤ dist →
    w.convs = c0 + NUM_CALIB_SAMPLES * (dist - MIN_DIST) →
    (dist_loop adc fl bam_send save_means dist w).trace
        = w.trace ++ (List.range' dist m).flatMap (blockEvents adc bam_send c0) ∧
    (dist_loop adc fl bam_send save_means dist w).convs = w.convs + NUM_CALIB_SAMPLES * m ∧
    (dist_loop adc fl bam_send save_means dist w).calib_data
        = if save_means then
            (List.range' dist m).foldl (fun t d => t.set d (calibEntry adc fl c0 d)) w.calib_data
          else w.calib_data := by
  intro m
  induction m with
  | zero =>
    intro dist w h _ _
    have hd : ¬ dist ≤ MAX_DIST := by omega
    rw [dist_loop, if_neg hd]
    simp
  | succ m ih =>
    intro dist w h h9 hc
    have hd : dist ≤ MAX_DIST := by omega
    rw [dist_loop, if_pos hd]
    simp only []
    obtain ⟨s1, s2, s3, s4⟩ := sample_loop_spec adc fl bam_send save_means dist
      NUM_CALIB_SAMPLES 0 0
      (emit (Event.wait_ms 500) (emit (Event.lcd_puts "Sampling...") (emit Event.lcd_clear
        (emit Event.wait_button (emit (Event.lprintf ("Ready to Start " ++ printf_d dist ++ " cm"))
          (emit Event.lcd_clear w)))))) (by simp)
    simp only [emit_trace, emit_convs, emit_calib_data] at s1 s2 s3 s4
    generalize sample_loop adc fl bam_send save_means dist 0 0
      (emit (Event.wait_ms 500) (emit (Event.lcd_puts "Sampling...") (emit Event.lcd_clear
        (emit Event.wait_button (emit (Event.lprintf ("Ready to Start " ++ printf_d dist ++ " cm"))
          (emit Event.lcd_clear w)))))) = r at s1 s2 s3 s4 ⊢
    have hconv : (if save_means = true then
          { r.2 with calib_data := r.2.calib_data.set dist (to_uint16 (c_round r.1)) }
        else r.2).convs = c0 + NUM_CALIB_SAMPLES * (dist + 1 - MIN_DIST) := by
      have : dist + 1 - MIN_DIST = (dist - MIN_DIST) + 1 := by omega
      cases save_means <;> simp [s2, hc, this, Nat.mul_add, Nat.add_assoc]
    obtain ⟨h1, h2, h3⟩ := ih (dist + 1) _ (by omega) (by omega) hconv
    rw [h1, h2, h3]
    refine ⟨?_, ?_, ?_⟩
    · cases save_means <;>
        simp [s1, hc, blockEvents, List.range'_succ]
    · cases save_means <;> simp [s2] <;> ring
    · cases save_means <;>
        simp [s3, s4, hc, calibEntry, List.range'_succ]


theorem ir_calibrate_spec (adc : Nat → Nat) (fl : ℚ → ℚ) (bam_send save_means : Bool)
    (w : World) :
    (ir_calibrate adc fl bam_send save_means w).trace
        = w.trace ++ ([Event.lcd_init, Event.init_push_buttons]
            ++ (if bam_send then
                  [Event.usart_init 1, Event.usart_tx_buf "Distances, Readings\n"]
                else [])
            ++ [Event.wait_ms 500]
            ++ (List.range' MIN_DIST 42).flatMap (blockEvents adc bam_send w.convs)) ∧
    (ir_calibrate adc fl bam_send save_means w).convs = w.convs + 2100 ∧
    (ir_calibrate adc fl bam_send save_means w).calib_data
        = if save_means then
            (List.range' MIN_DIST 42).foldl
              (fun t d => t.set d (calibEntry adc fl w.convs d)) w.calib_data
          else w.calib_data := by
  unfold ir_calibrate
  simp only []
  have hc : (emit (Event.wait_ms 500)
      (if bam_send then
        emit (Event.usart_tx_buf "Distances, Readings\n")
          (emit (Event.usart_init 1) (emit Event.init_push_buttons (emit Event.lcd_init w)))
      else emit Event.init_push_buttons (emit Event.lcd_init w))).convs
      = w.convs + NUM_CALIB_SAMPLES * (MIN_DIST - MIN_DIST) := by
    cases bam_send <;> simp [emit]
  obtain ⟨h1, h2, h3⟩ := dist_loop_spec adc fl bam_send save_means w.convs 42 MIN_DIST _
    (by decide) (le_refl _) hc
  rw [h1, h2, h3]
  refine ⟨?_, ?_, ?_⟩
  · cases bam_send <;> simp [emit]
  · cases bam_send <;> simp [emit, NUM_CALIB_SAMPLES]
  · cases bam_send <;> simp [emit]

theorem runEvents_eq (adc : Nat → Nat) (fl : ℚ → ℚ) (bam_send save_means : Bool)
    (w : World) :
    runEvents adc fl bam_send save_means w
      = [Event.lcd_init, Event.init_push_buttons]
            ++ (if bam_send then
                  [Event.usart_init 1, Event.usart_tx_buf "Distances, Readings\n"]
                else [])
            ++ [Event.wait_ms 500]
            ++ (List.range' MIN_DIST 42).flatMap (blockEvents adc bam_send w.convs) := by
  unfold runEvents
  rw [(ir_calibrate_spec adc fl bam_send save_means w).1]
  simp


theorem printf_d_small (v : Nat) (h : v < 32768) : printf_d v = Nat.repr v := by
  have hm : v % 65536 = v := Nat.mod_eq_of_lt (by omega)
  simp [printf_d, hm, h]

theorem snprintf_short (s : String) (h : s.length ≤ 99) : snprintf 100 s = s := by
  unfold snprintf
  rw [List.take_of_length_le (by simpa using h)]

theorem telemetry_line (d raw : Nat) (hd : d < 256) (hraw : raw ≤ 1023) :
    snprintf 100 (printf_d (d % 256) ++ ", " ++ printf_d (raw % 65536 % 65536) ++ "\n")
      = sampleLine d raw := by
  have h1 : d % 256 = d := Nat.mod_eq_of_lt hd
  have h2 : raw % 65536 = raw := Nat.mod_eq_of_lt (by omega)
  rw [h1, h2, h2, printf_d_small d (by omega), printf_d_small raw (by omega)]
  unfold sampleLine
  apply snprintf_short
  have l1 : (Nat.repr d).length ≤ 3 := Nat.repr_length d 3 (by norm_num) (by norm_num; omega)
  have l2 : (Nat.repr raw).length ≤ 4 := Nat.repr_length raw 4 (by norm_num) (by norm_num; omega)
  simp only [String.length_append]
  have l3 : ", ".length = 2 := rfl
  have l4 : "\n".length = 1 := rfl
  omega

theorem txLines_append (a b : List Event) : txLines (a ++ b) = txLines a ++ txLines b := by
  simp [txLines]

theorem txLines_samples (adc : Nat → Nat) (d : Nat) (hd : d < 256) (l : List Nat)
    (h : ∀ k ∈ l, adc k ≤ 1023) :
    txLines (l.flatMap (sampleEvents adc true d)) = l.map (fun k => sampleLine d (adc k)) := by
  induction l with
  | nil => simp [txLines]
  | cons k l ih =>
    have hk : adc k ≤ 1023 := h k (by simp)
    have hk2 : adc k % 65536 = adc k := Nat.mod_eq_of_lt (by omega)
    rw [List.flatMap_cons, txLines_append, ih (fun j hj => h j (by simp [hj]))]
    have := telemetry_line d (adc k) hd hk
    simp only [hk2] at this
    simp [txLines, sampleEvents, hk2, this]

theorem txLines_samples_off (adc : Nat → Nat) (d : Nat) (l : List Nat) :
    txLines (l.flatMap (sampleEvents adc false d)) = [] := by
  induction l with
  | nil => simp [txLines]
  | cons k l ih =>
    rw [List.flatMap_cons, txLines_append, ih]
    simp [txLines, sampleEvents]


theorem flatten_blocks {α : Type} (g : Nat → Nat → α) (c0 : Nat) : ∀ m : Nat,
    (List.range' 9 m).flatMap (fun d => (List.range' (c0 + 50 * (d - 9)) 50).map (g d))
      = (List.range (50 * m)).map (fun k => g (9 + k / 50) (c0 + k)) := by
  intro m
  induction m with
  | zero => simp
  | succ m ih =>
    rw [List.range'_concat, List.flatMap_append, ih, Nat.mul_succ, List.range_add,
      List.map_append]
    congr 1
    simp only [List.flatMap_cons, List.flatMap_nil, List.append_nil, List.map_map,
      List.range'_eq_map_range]
    apply List.map_congr_left
    intro x hx
    have hx50 : x < 50 := List.mem_range.mp hx
    have e1 : (50 * m + x) / 50 = m := by omega
    have e2 : 9 + m - 9 = m := by omega
    simp only [Function.comp, e1, e2, one_mul, Nat.add_assoc]

theorem txLines_blocks (adc : Nat → Nat) (c0 : Nat) (l : List Nat)
    (hl : ∀ d ∈ l, d < 256)
    (h : ∀ d ∈ l, ∀ k ∈ List.range' (c0 + 50 * (d - 9)) 50, adc k ≤ 1023) :
    txLines (l.flatMap (blockEvents adc true c0))
      = l.flatMap (fun d => (List.range' (c0 + 50 * (d - 9)) 50).map
          (fun k => sampleLine d (adc k))) := by
  induction l with
  | nil => simp [txLines]
  | cons d l ih =>
    rw [List.flatMap_cons, List.flatMap_cons, txLines_append,
      ih (fun e he => hl e (by simp [he])) (fun e he => h e (by simp [he]))]
    congr 1
    unfold blockEvents
    rw [txLines_append]
    have := txLines_samples adc d (hl d (by simp)) _ (h d (by simp))
    simp only [NUM_CALIB_SAMPLES, MIN_DIST]
    rw [this]
    simp [txLines]

theorem txLines_blocks_off (adc : Nat → Nat) (c0 : Nat) (l : List Nat) :
    txLines (l.flatMap (blockEvents adc false c0)) = [] := by
  induction l with
  | nil => simp [txLines]
  | cons d l ih =>
    rw [List.flatMap_cons, txLines_append, ih]
    unfold blockEvents
    rw [txLines_append, txLines_samples_off]
    simp [txLines]

/-- Claim C4: when the raw codes of the session lie in 0..1023, a run with
bam_send set hands exactly 2101 texts to usart_tx_buf: first the header
"Distances, Readings\n" and then, for k = 0..2099, the line made of the
decimal distance 9 + k / 50, a comma and a blank, the decimal k-th raw code of
the session and a newline.  A run with bam_send clear transmits nothing. -/
theorem ir_calibrate_telemetry (adc : Nat → Nat) (fl : ℚ → ℚ) (save_means : Bool) (w : World)
    (hraw : ∀ k, k < 2100 → adc (w.convs + k) ≤ 1023) :
    txLines (runEvents adc fl true save_means w)
      = "Distances, Readings\n" ::
          (List.range 2100).map (fun k => sampleLine (9 + k / 50) (adc (w.convs + k))) ∧
    (txLines (runEvents adc fl true save_means w)).length = 2101 ∧
    txLines (runEvents adc fl false save_means w) = [] := by
  have hon : txLines (runEvents adc fl true save_means w)
      = "Distances, Readings\n" ::
          (List.range 2100).map (fun k => sampleLine (9 + k / 50) (adc (w.convs + k))) := by
    rw [runEvents_eq]
    simp only [txLines_append, if_true, MIN_DIST]
    rw [txLines_blocks adc w.convs, flatten_blocks (fun d k => sampleLine d (adc k)) w.convs 42]
    · simp [txLines]
    · intro d hd
      have := List.mem_range'_1.mp hd
      omega
    · intro d hd k hk
      have hd2 := List.mem_range'_1.mp hd
      have hk2 := List.mem_range'_1.mp hk
      have := hraw (k - w.convs) (by omega)
      have e : w.convs + (k - w.convs) = k := by omega
      rw [e] at this
      exact this
  refine ⟨hon, by rw [hon]; simp, ?_⟩
  rw [runEvents_eq]
  simp only [txLines_append, txLines_blocks_off]
  simp [txLines]


theorem calibSteps_append (a b : List Event) :
    calibSteps (a ++ b) = calibSteps a ++ calibSteps b := by
  simp [calibSteps]

theorem calibSteps_samples (adc : Nat → Nat) (bam_send : Bool) (d : Nat) (l : List Nat) :
    calibSteps (l.flatMap (sampleEvents adc bam_send d))
      = l.map (fun k => Event.adc_conversion (adc k % 65536)) := by
  induction l with
  | nil => simp [calibSteps]
  | cons k l ih =>
    rw [List.flatMap_cons, calibSteps_append, ih]
    cases bam_send <;> simp [calibSteps, sampleEvents]

theorem calibSteps_blocks (adc : Nat → Nat) (bam_send : Bool) (c0 : Nat) (l : List Nat)
    (hl : ∀ d ∈ l, d < 32768) :
    calibSteps (l.flatMap (blockEvents adc bam_send c0)) = l.flatMap (expectedSteps adc c0) := by
  induction l with
  | nil => simp [calibSteps]
  | cons d l ih =>
    rw [List.flatMap_cons, List.flatMap_cons, calibSteps_append,
      ih (fun e he => hl e (by simp [he]))]
    congr 1
    unfold blockEvents expectedSteps
    rw [calibSteps_append, calibSteps_samples, printf_d_small d (hl d (by simp)),
      List.range'_eq_map_range]
    simp [calibSteps, NUM_CALIB_SAMPLES, MIN_DIST, Function.comp]

theorem countP_flatMap_const {α β : Type} (p : β → Bool) (f : α → List β) (c : Nat)
    (l : List α) (h : ∀ a ∈ l, (f a).countP p = c) :
    (l.flatMap f).countP p = c * l.length := by
  induction l with
  | nil => simp
  | cons a l ih =>
    rw [List.flatMap_cons, List.countP_append, h a (by simp),
      ih (fun b hb => h b (by simp [hb])), List.length_cons, Nat.mul_succ, Nat.add_comm]

theorem sampleEvents_conversions (adc : Nat → Nat) (bam_send : Bool) (d k : Nat) :
    (sampleEvents adc bam_send d k).countP Event.isConversion = 1 := by
  cases bam_send <;> simp [sampleEvents, Event.isConversion, List.countP_cons]

theorem sampleEvents_buttons (adc : Nat → Nat) (bam_send : Bool) (d k : Nat) :
    (sampleEvents adc bam_send d k).countP Event.isButtonWait = 0 := by
  cases bam_send <;> simp [sampleEvents, Event.isButtonWait, List.countP_cons]

theorem blockEvents_conversions (adc : Nat → Nat) (bam_send : Bool) (c0 d : Nat) :
    (blockEvents adc bam_send c0 d).countP Event.isConversion = 50 := by
  unfold blockEvents
  rw [List.countP_append, countP_flatMap_const Event.isConversion _ 1 _
    (fun k _ => sampleEvents_conversions adc bam_send d k)]
  simp [Event.isConversion, List.countP_cons, NUM_CALIB_SAMPLES]

theorem blockEvents_buttons (adc : Nat → Nat) (bam_send : Bool) (c0 d : Nat) :
    (blockEvents adc bam_send c0 d).countP Event.isButtonWait = 1 := by
  unfold blockEvents
  rw [List.countP_append, countP_flatMap_const Event.isButtonWait _ 0 _
    (fun k _ => sampleEvents_buttons adc bam_send d k)]
  simp [Event.isButtonWait, List.countP_cons]

/-- Claim C5: for every combination of the two flags the prompts, button waits
and conversions of one run are, in order, those of the distances 9, 10, ..., 50:
for each distance one prompt naming it, one button wait, and then the 50
conversions of that distance.  The run waits for the button 42 times and
performs 2100 conversions in all. -/
theorem ir_calibrate_visits (adc : Nat → Nat) (fl : ℚ → ℚ) (bam_send save_means : Bool)
    (w : World) :
    (ir_calibrate adc fl bam_send save_means w).trace
      = w.trace ++ runEvents adc fl bam_send save_means w ∧
    calibSteps (runEvents adc fl bam_send save_means w)
      = (List.range' 9 42).flatMap (expectedSteps adc w.convs) ∧
    (runEvents adc fl bam_send save_means w).countP Event.isButtonWait = 42 ∧
    (runEvents adc fl bam_send save_means w).countP Event.isConversion = 2100 ∧
    (ir_calibrate adc fl bam_send save_means w).convs = w.convs + 2100 := by
  obtain ⟨h1, h2, _⟩ := ir_calibrate_spec adc fl bam_send save_means w
  refine ⟨?_, ?_, ?_, ?_, h2⟩
  · rw [runEvents_eq, h1]
  · rw [runEvents_eq]
    simp only [calibSteps_append, MIN_DIST]
    rw [calibSteps_blocks adc bam_send w.convs _ (by
      intro d hd
      have := List.mem_range'_1.mp hd
      omega)]
    cases bam_send <;> simp [calibSteps]
  · rw [runEvents_eq]
    simp only [List.countP_append]
    rw [countP_flatMap_const Event.isButtonWait _ 1 _
      (fun d _ => blockEvents_buttons adc bam_send w.convs d)]
    cases bam_send <;> simp [Event.isButtonWait, List.countP_cons]
  · rw [runEvents_eq]
    simp only [List.countP_append]
    rw [countP_flatMap_const Event.isConversion _ 50 _
      (fun d _ => blockEvents_conversions adc bam_send w.convs d)]
    cases bam_send <;> simp [Event.isConversion, List.countP_cons]

/-- Claim C3: a run with save_means clear leaves calib_data as it was, for
every initial table, every value of bam_send and every sequence of raw codes. -/
theorem ir_calibrate_no_save (adc : Nat → Nat) (fl : ℚ → ℚ) (bam_send : Bool) (w : World) :
    (ir_calibrate adc fl bam_send false w).calib_data = w.calib_data ∧
    ∀ i, i ≤ MAX_DIST →
      (ir_calibrate adc fl bam_send false w).calib_data[i]? = w.calib_data[i]? := by
  have h := (ir_calibrate_spec adc fl bam_send false w).2.2
  simp only [Bool.false_eq_true, if_false] at h
  exact ⟨h, fun i _ => by rw [h]⟩


theorem accumulate_step_bound (fl : ℚ → ℚ) (hfl : FloatModel fl) (a T x : ℚ) (j : ℕ)
    (hj : j < 50) (hx0 : 0 ≤ x) (hx : x ≤ 1023) (hT0 : 0 ≤ T) (hT : T ≤ j * 1023)
    (ha : |a - T / 50| ≤ j * (1200 / 8388608)) :
    |fl (a + fl (x / 50)) - (T + x) / 50| ≤ ((j + 1 : ℕ) : ℚ) * (1200 / 8388608) := by
  have hjq : (j : ℚ) ≤ 49 := by
    have : j ≤ 49 := by omega
    exact_mod_cast this
  have hj0 : (0 : ℚ) ≤ j := Nat.cast_nonneg j
  have hp : (2 : ℚ) ^ 23 = 8388608 := by norm_num
  have h1 := hfl (x / 50)
  have h2 := hfl (a + fl (x / 50))
  rw [hp] at h1 h2
  have hx50 : |x / 50| = x / 50 := abs_of_nonneg (by positivity)
  rw [hx50] at h1
  obtain ⟨h1l, h1u⟩ := abs_le.mp h1
  obtain ⟨hal, hau⟩ := abs_le.mp ha
  have hy : |a + fl (x / 50)| ≤ 1100 := by
    rw [abs_le]
    constructor <;> linarith
  have h2b : |fl (a + fl (x / 50)) - (a + fl (x / 50))| ≤ 1100 / 8388608 :=
    le_trans h2 (by gcongr)
  obtain ⟨h2l, h2u⟩ := abs_le.mp h2b
  rw [abs_le]
  push_cast
  constructor <;> linarith


theorem accumulate_bound (fl : ℚ → ℚ) (hfl : FloatModel fl) (adc : Nat → Nat) :
    ∀ (l : List Nat) (a T : ℚ) (j : ℕ), j + l.length ≤ 50 → (∀ k ∈ l, adc k ≤ 1023) →
    0 ≤ T → T ≤ j * 1023 → |a - T / 50| ≤ j * (1200 / 8388608) →
    |l.foldl (fun a k => fl (a + fl (((adc k % 65536 : Nat) : ℚ) / (NUM_CALIB_SAMPLES : ℚ)))) a
        - (T + (l.map (fun k => (adc k : ℚ))).sum) / 50|
      ≤ ((j + l.length : ℕ) : ℚ) * (1200 / 8388608) := by
  intro l
  induction l with
  | nil =>
    intro a T j _ _ _ _ ha
    simpa using ha
  | cons k l ih =>
    intro a T j hj hl hT0 hT ha
    have hk : adc k ≤ 1023 := hl k (by simp)
    have hkm : adc k % 65536 = adc k := Nat.mod_eq_of_lt (by omega)
    have hkq : ((adc k : ℕ) : ℚ) ≤ 1023 := by exact_mod_cast hk
    have hk0 : (0 : ℚ) ≤ ((adc k : ℕ) : ℚ) := Nat.cast_nonneg _
    have hlen : j + 1 + l.length ≤ 50 := by
      simp only [List.length_cons] at hj
      omega
    have hstep := accumulate_step_bound fl hfl a T (adc k) j (by omega) hk0 hkq hT0 hT ha
    have hT2 : T + (adc k : ℚ) ≤ ((j + 1 : ℕ) : ℚ) * 1023 := by
      push_cast
      linarith
    have := ih (fl (a + fl ((adc k : ℚ) / 50))) (T + (adc k : ℚ)) (j + 1) hlen
      (fun i hi => hl i (by simp [hi])) (by linarith) hT2 hstep
    simp only [List.foldl_cons, List.map_cons, List.sum_cons, List.length_cons, hkm,
      NUM_CALIB_SAMPLES, Nat.cast_ofNat]
    have e1 : j + (l.length + 1) = j + 1 + l.length := by omega
    rw [e1, ← add_assoc]
    exact this

theorem c_round_bounds (x : ℚ) :
    x - 1 / 2 ≤ (c_round x : ℚ) ∧ (c_round x : ℚ) ≤ x + 1 / 2 := by
  unfold c_round
  by_cases hx : 0 ≤ x
  · rw [if_pos hx]
    have h1 := Int.lt_floor_add_one (x + 1 / 2)
    have h2 := Int.floor_le (x + 1 / 2)
    constructor <;> linarith
  · rw [if_neg hx]
    have h1 := Int.ceil_lt_add_one (x - 1 / 2)
    have h2 := Int.le_ceil (x - 1 / 2)
    constructor <;> linarith

theorem to_uint16_of_range (z : ℤ) (h0 : 0 ≤ z) (h1 : z < 65536) :
    ((to_uint16 z : ℕ) : ℤ) = z := by
  unfold to_uint16
  rw [Int.emod_eq_of_lt h0 h1, Int.toNat_of_nonneg h0]

theorem foldl_set_getElem (f : Nat → Nat) : ∀ (l : List Nat) (t : List Nat) (i : Nat),
    i ∈ l → i < t.length →
    (l.foldl (fun t d => t.set d (f d)) t)[i]? = some (f i) := by
  have key : ∀ (l : List Nat) (t : List Nat) (i : Nat), i < t.length →
      (l.foldl (fun t d => t.set d (f d)) t)[i]?
        = if i ∈ l then some (f i) else t[i]? := by
    intro l
    induction l with
    | nil => intro t i _; simp
    | cons x l ih =>
      intro t i hi
      rw [List.foldl_cons, ih (t.set x (f x)) i (by simpa using hi)]
      by_cases hil : i ∈ l
      · simp [hil]
      · by_cases hix : i = x
        · subst hix
          simp [hil, hi]
        · have hxi : ¬ x = i := fun h => hix h.symm
          simp [hil, hix, List.getElem?_set, hxi]
  intro l t i hmem hi
  rw [key l t i hi, if_pos hmem]



theorem raw_sum_bounds (adc : Nat → Nat) : ∀ (l : List Nat), (∀ k ∈ l, adc k ≤ 1023) →
    0 ≤ (l.map (fun k => (adc k : ℚ))).sum ∧
    (l.map (fun k => (adc k : ℚ))).sum ≤ 1023 * (l.length : ℚ) := by
  intro l
  induction l with
  | nil => intro _; simp
  | cons k l ih =>
    intro h
    obtain ⟨i1, i2⟩ := ih (fun i hi => h i (by simp [hi]))
    have hk : ((adc k : ℕ) : ℚ) ≤ 1023 := by exact_mod_cast h k (by simp)
    have hk0 : (0 : ℚ) ≤ ((adc k : ℕ) : ℚ) := Nat.cast_nonneg _
    simp only [List.map_cons, List.sum_cons, List.length_cons]
    push_cast
    constructor <;> linarith

theorem sampleMean_eq (adc : Nat → Nat) (c0 d : Nat) :
    sampleMean adc c0 d
      = ((List.range' (c0 + 50 * (d - 9)) 50).map (fun k => (adc k : ℚ))).sum / 50 := by
  unfold sampleMean
  rw [List.range'_eq_map_range, List.map_map]
  rfl

theorem calibEntry_near_mean (adc : Nat → Nat) (fl : ℚ → ℚ) (hfl : FloatModel fl)
    (c0 d : Nat) (hraw : ∀ k ∈ List.range' (c0 + 50 * (d - 9)) 50, adc k ≤ 1023)
    (m : ℤ) (hm : |(m : ℚ) - sampleMean adc c0 d| ≤ 1 / 2) :
    |(calibEntry adc fl c0 d : ℤ) - m| ≤ 1 := by
  have hacc := accumulate_bound fl hfl adc (List.range' (c0 + 50 * (d - 9)) 50) 0 0 0
    (by simp) hraw (le_refl _) (by simp) (by simp)
  obtain ⟨s0, s1⟩ := raw_sum_bounds adc _ hraw
  rw [sampleMean_eq] at hm
  simp only [List.length_range', zero_add, Nat.cast_ofNat] at hacc s1
  obtain ⟨r1, r2⟩ := c_round_bounds
    (runningAvg adc fl (c0 + NUM_CALIB_SAMPLES * (d - MIN_DIST)) NUM_CALIB_SAMPLES 0)
  have hrun : runningAvg adc fl (c0 + NUM_CALIB_SAMPLES * (d - MIN_DIST)) NUM_CALIB_SAMPLES 0
      = (List.range' (c0 + 50 * (d - 9)) 50).foldl
          (fun a k => fl (a + fl (((adc k % 65536 : Nat) : ℚ) / (NUM_CALIB_SAMPLES : ℚ)))) 0 := rfl
  rw [hrun] at r1 r2
  obtain ⟨a1, a2⟩ := abs_le.mp hacc
  obtain ⟨m1, m2⟩ := abs_le.mp hm
  have hz0 : (0 : ℤ) ≤ c_round
      (runningAvg adc fl (c0 + NUM_CALIB_SAMPLES * (d - MIN_DIST)) NUM_CALIB_SAMPLES 0) := by
    rw [hrun]
    have : ((-1 : ℤ) : ℚ) < ((c_round ((List.range' (c0 + 50 * (d - 9)) 50).foldl
          (fun a k => fl (a + fl (((adc k % 65536 : Nat) : ℚ) / (NUM_CALIB_SAMPLES : ℚ)))) 0) : ℤ) : ℚ) := by
      push_cast
      linarith
    have := Int.cast_lt.mp this
    omega
  have hz1 : c_round
      (runningAvg adc fl (c0 + NUM_CALIB_SAMPLES * (d - MIN_DIST)) NUM_CALIB_SAMPLES 0) < 65536 := by
    rw [hrun]
    have : ((c_round ((List.range' (c0 + 50 * (d - 9)) 50).foldl
          (fun a k => fl (a + fl (((adc k % 65536 : Nat) : ℚ) / (NUM_CALIB_SAMPLES : ℚ)))) 0) : ℤ) : ℚ)
          < ((65536 : ℤ) : ℚ) := by
      push_cast
      linarith
    exact Int.cast_lt.mp this
  unfold calibEntry
  rw [to_uint16_of_range _ hz0 hz1, hrun]
  have hlt : (((c_round ((List.range' (c0 + 50 * (d - 9)) 50).foldl
          (fun a k => fl (a + fl (((adc k % 65536 : Nat) : ℚ) / (NUM_CALIB_SAMPLES : ℚ)))) 0) - m : ℤ)) : ℚ)
          < ((2 : ℤ) : ℚ) := by
    push_cast
    linarith
  have hgt : ((-2 : ℤ) : ℚ) < (((c_round ((List.range' (c0 + 50 * (d - 9)) 50).foldl
          (fun a k => fl (a + fl (((adc k % 65536 : Nat) : ℚ) / (NUM_CALIB_SAMPLES : ℚ)))) 0) - m : ℤ)) : ℚ) := by
    push_cast
    linarith
  have hlt2 := Int.cast_lt.mp hlt
  have hgt2 := Int.cast_lt.mp hgt
  rw [abs_le]
  constructor <;> omega

/-- Claim C2: let the float operations be any operations within one unit in
the last place, the table have its MAX_DIST + 1 entries and the 2100 raw codes
of the session lie in 0..1023.  After a run with save_means set the entry at
each distance d in 9..50 is round(avg) stored as a uint16_t, and it differs by
at most 1 from every integer nearest to the arithmetic mean of the 50 raw codes
sampled at d. -/
theorem ir_calibrate_saved_means (adc : Nat → Nat) (fl : ℚ → ℚ) (hfl : FloatModel fl)
    (bam_send : Bool) (w : World) (hlen : w.calib_data.length = MAX_DIST + 1)
    (hraw : ∀ k, k < 2100 → adc (w.convs + k) ≤ 1023)
    (d : Nat) (hd1 : 9 ≤ d) (hd2 : d ≤ 50)
    (m : ℤ) (hm : |(m : ℚ) - sampleMean adc w.convs d| ≤ 1 / 2) :
    (ir_calibrate adc fl bam_send true w).calib_data[d]?
        = some (calibEntry adc fl w.convs d) ∧
    |(calibEntry adc fl w.convs d : ℤ) - m| ≤ 1 := by
  constructor
  · rw [(ir_calibrate_spec adc fl bam_send true w).2.2, if_pos rfl]
    apply foldl_set_getElem
    · rw [List.mem_range'_1]
      simp only [MIN_DIST]
      omega
    · rw [hlen]
      simp only [MAX_DIST]
      omega
  · apply calibEntry_near_mean adc fl hfl w.convs d _ m hm
    intro k hk
    have hk2 := List.mem_range'_1.mp hk
    have := hraw (k - w.convs) (by omega)
    have e : w.convs + (k - w.convs) = k := by omega
    rw [e] at this
    exact this


/-! ## Instances of the theorems at concrete inputs -/

theorem roundNearestEven_bounds (y : ℚ) :
    y - 1 / 2 ≤ (roundNearestEven y : ℚ) ∧ (roundNearestEven y : ℚ) ≤ y + 1 / 2 := by
  have h1 := Int.floor_le y
  have h2 := Int.lt_floor_add_one y
  unfold roundNearestEven
  split_ifs <;> push_cast <;> constructor <;> linarith

/-- Rounding to nearest binary32 satisfies the float error model. -/
theorem floatModel_binary32 : FloatModel binary32 := by
  intro x
  unfold binary32
  by_cases hx : x = 0
  · simp [hx]
  · rw [if_neg hx]
    have hpos : 0 < |x| := abs_pos.mpr hx
    have hlog : (2 : ℚ) ^ Int.log 2 |x| ≤ |x| := by
      have := @Int.zpow_log_le_self ℚ _ _ 2 |x| (by norm_num) hpos
      simpa using this
    set q : ℚ := 2 ^ (Int.log 2 |x| - 23) with hq
    have hq0 : 0 < q := by positivity
    have hqe : q = 2 ^ Int.log 2 |x| / 2 ^ 23 := by
      rw [hq, zpow_sub₀ (by norm_num)]
      norm_num
    obtain ⟨b1, b2⟩ := roundNearestEven_bounds (x / q)
    have hxq : x / q * q = x := div_mul_cancel₀ x (ne_of_gt hq0)
    have e : (roundNearestEven (x / q) : ℚ) * q - x
        = ((roundNearestEven (x / q) : ℚ) - x / q) * q := by
      rw [sub_mul, hxq]
    rw [e, abs_mul, abs_of_pos hq0]
    have habs : |(roundNearestEven (x / q) : ℚ) - x / q| ≤ 1 / 2 := by
      rw [abs_le]; constructor <;> linarith
    have hq2 : q ≤ |x| / 2 ^ 23 := by
      rw [hqe]
      gcongr
    calc |(roundNearestEven (x / q) : ℚ) - x / q| * q ≤ 1 / 2 * q := by gcongr
      _ ≤ q := by linarith
      _ ≤ |x| / 2 ^ 23 := hq2

/-- Exact arithmetic satisfies the float error model. -/
theorem floatModel_exactArith : FloatModel exactArith := by
  intro x
  simp only [exactArith, id_eq, sub_self, abs_zero]
  positivity

/-- The dispatcher on the unrecognised byte 7, from the boot state. -/
theorem ir_system_dispatch_witness :
    7 < 256 ∧
    ir_system 7 World.boot =
      { World.boot with trace := World.boot.trace ++
          [Event.usart_rx 7, Event.txq_enqueue 7,
           Event.r_error ErrorCode.error_bad_message "Bad IR Command"] } :=
  ⟨by decide, (ir_system_dispatch 7 (by decide) World.boot).2.2 (by decide) (by decide)⟩

/-- The cubic at raw code 500. -/
theorem ir_conv_expanded_witness :
    500 ≤ 1023 ∧
    (ir_conv exactArith 500
      = 100.5 - 0.2811 * ((500 : ℕ) : ℚ) + 3.148e-4 * ((500 : ℕ) : ℚ) ^ 2
          - 1.254e-7 * ((500 : ℕ) : ℚ) ^ 3
    ∧ ir_conv exactArith 0 = 100.5 ∧ ir_conv exactArith 500 = 22.975) :=
  ⟨by decide, ir_conv_expanded 500 (by decide)⟩

/-- The analytical conversion at raw code 85, the code nearest to the pole of
the model. -/
theorem ir_analytical_conv_total_witness :
    85 < 65536 ∧
    ((0.042977 * (2.56 / 1024) * ((85 : ℕ) : ℚ) - 0.009167 : ℚ) ≠ 0 ∧
    ir_analytical_denominator exactArith 85 ≠ 0 ∧
    ir_analytical_conv exactArith 85
      = some (1 / (0.042977 * (2.56 / 1024) * ((85 : ℕ) : ℚ) - 0.009167) - 0.42)) :=
  ⟨by decide, ir_analytical_conv_total 85 (by decide)⟩

/-- The two ends of the raw code range. -/
theorem ir_conv_strictly_decreasing_witness :
    0 < 1023 ∧ 1023 ≤ 1023 ∧
    (ir_conv exactArith 1023 < ir_conv exactArith 0 ∧
    ir_conv exactArith 0 ≠ ir_conv exactArith 1023 ∧
    ((2 * coef exactArith 2) ^ 2 - 4 * (3 * coef exactArith 3) * coef exactArith 1 < 0)) :=
  ⟨by decide, by decide, ir_conv_strictly_decreasing 0 1023 (by decide) (by decide)⟩

/-- A telemetry session from the boot state in which every conversion yields
the code 512. -/
theorem ir_calibrate_telemetry_witness :
    (∀ k, k < 2100 → (fun _ : Nat => 512) (World.boot.convs + k) ≤ 1023) ∧
    (txLines (runEvents (fun _ => 512) exactArith true true World.boot)
      = "Distances, Readings\n" ::
          (List.range 2100).map
            (fun k => sampleLine (9 + k / 50) ((fun _ : Nat => 512) (World.boot.convs + k))) ∧
    (txLines (runEvents (fun _ => 512) exactArith true true World.boot)).length = 2101 ∧
    txLines (runEvents (fun _ => 512) exactArith false true World.boot) = []) :=
  ⟨fun _ _ => (by decide : (512 : Nat) ≤ 1023),
   ir_calibrate_telemetry (fun _ => 512) exactArith true World.boot (fun _ _ => (by decide : (512 : Nat) ≤ 1023))⟩

/-- A saving session from the boot state, computed with binary32 rounding, in
which every conversion yields the code 512, observed at distance 9. -/
theorem ir_calibrate_saved_means_witness :
    FloatModel binary32 ∧
    World.boot.calib_data.length = MAX_DIST + 1 ∧
    (∀ k, k < 2100 → (fun _ : Nat => 512) (World.boot.convs + k) ≤ 1023) ∧
    9 ≤ 9 ∧ 9 ≤ 50 ∧
    |((512 : ℤ) : ℚ) - sampleMean (fun _ => 512) World.boot.convs 9| ≤ 1 / 2 ∧
    ((ir_calibrate (fun _ => 512) binary32 false true World.boot).calib_data[9]?
        = some (calibEntry (fun _ => 512) binary32 World.boot.convs 9) ∧
    |(calibEntry (fun _ => 512) binary32 World.boot.convs 9 : ℤ) - 512| ≤ 1) :=
  have hm : |((512 : ℤ) : ℚ) - sampleMean (fun _ => 512) World.boot.convs 9| ≤ 1 / 2 := by
    simp [sampleMean]
    norm_num
  ⟨floatModel_binary32, by decide, fun _ _ => (by decide : (512 : Nat) ≤ 1023), by decide,
   by decide, hm,
   ir_calibrate_saved_means (fun _ => 512) binary32 floatModel_binary32 false World.boot
     (by decide) (fun _ _ => (by decide : (512 : Nat) ≤ 1023)) 9 (by decide) (by decide) 512 hm⟩

end IR
